import Mathlib

/-!
Verification of the AliceVision `sfmTransfer` tool
(`src/software/utils/main_sfmTransfer.cpp`).

The scene data model (`SfMData`) and the library queries it offers
(`isPoseAndIntrinsicDefined`, `getCommonViews`, the two matchers) live in
the AliceVision library, outside the single source file of this
repository; they are modelled from the specification.  The matching
dispatch, the transfer loop and the surrounding control flow of `main`
are embedded directly from the source file.

Scene tables are `Finmap`s: like `std::map`, lookup/insert by key with
extensional equality.
-/

/-- Numeric identifier type (`aliceVision::IndexT`). -/
abbrev IndexT := ℕ

/-- A 6-DoF pose.  Its internal structure is irrelevant to the tool:
poses are only copied verbatim, so we model the payload opaquely. -/
abbrev Pose := ℕ

/-- Camera intrinsic parameters.  The tool only copies them wholesale via
`assign`, so the payload is modelled opaquely. -/
abbrev Intrinsic := ℕ

/-- Modelled from the spec: a `View` references an intrinsic ID, a pose ID,
a source image path, string-keyed metadata, and rig membership
(`aliceVision::sfmData::View`, not under `src/`). -/
structure View where
  poseId : IndexT
  intrinsicId : IndexT
  isPartOfRig : Bool
  path : String
  metadata : List (String × String)
deriving DecidableEq

/-- Modelled from the spec: an `SfMData` scene owns a view table, a pose
table and an intrinsic table (`aliceVision::sfmData::SfMData`, not under
`src/`). -/
@[ext]
structure SfMData where
  views : Finmap (fun _ : IndexT => View)
  poses : Finmap (fun _ : IndexT => Pose)
  intrinsics : Finmap (fun _ : IndexT => Intrinsic)
deriving DecidableEq

/-- Modelled from the spec: a view is pose-and-intrinsic-complete iff its
pose ID resolves in the scene's pose table AND its intrinsic ID resolves
in the scene's intrinsic table (`SfMData::isPoseAndIntrinsicDefined`, not
under `src/`).  A view ID absent from the view table resolves nothing. -/
def SfMData.isPoseAndIntrinsicDefined (s : SfMData) (viewId : IndexT) : Bool :=
  match s.views.lookup viewId with
  | some v => (s.poses.lookup v.poseId).isSome && (s.intrinsics.lookup v.intrinsicId).isSome
  | none => false

/-- Modelled from the spec: `getCommonViews` returns every ViewId present
in both scenes' view tables (`aliceVision::sfm::getCommonViews`, not under
`src/`); listed in ascending order, matching `std::map` iteration. -/
def getCommonViews (a b : SfMData) : List IndexT :=
  (a.views.keys ∩ b.views.keys).sort (· ≤ ·)

/-- Look up a metadata value by key on a view. -/
def View.metadataValue (v : View) (key : String) : Option String :=
  (v.metadata.find? (fun p => p.1 == key)).map (fun p => p.2)

/-- Modelled from the spec: two views agree on a metadata key list iff for
every key, both views carry the key and the values are equal. -/
def viewsAgreeOnMetadata (keys : List String) (vA vB : View) : Bool :=
  keys.all (fun k =>
    match vA.metadataValue k, vB.metadataValue k with
    | some x, some y => x == y
    | _, _ => false)

/-- Modelled from the spec: first reference view (stable ascending order)
agreeing with `vA` on all keys — the deterministic tie-break. -/
def findMetadataMatch (keys : List String) (vA : View) (r : SfMData) : Option IndexT :=
  ((r.views.keys.sort (· ≤ ·)).filter (fun idB =>
    match r.views.lookup idB with
    | some vB => viewsAgreeOnMetadata keys vA vB
    | none => false)).head?

/-- Modelled from the spec: By-Metadata matching
(`aliceVision::sfm::matchViewsByMetadataMatching`, not under `src/`).
An empty key list produces no correspondences (conservative default);
otherwise each target view is paired with the first reference view whose
values agree on every listed key. -/
def matchViewsByMetadataMatching (t r : SfMData) (keys : List String) :
    List (IndexT × IndexT) :=
  if keys.isEmpty then []
  else
    (t.views.keys.sort (· ≤ ·)).filterMap (fun idA =>
      match t.views.lookup idA with
      | some vA => (findMetadataMatch keys vA r).map (fun idB => (idA, idB))
      | none => none)

/-- Modelled from the spec: By-File-Path-Pattern matching
(`aliceVision::sfm::matchViewsByFilePattern`, not under `src/`).  Each
view's source path is reduced to a key by the pattern (abstracted here as
a reduction function); a target view is paired with a reference view iff
exactly one reference view carries the same reduced key. -/
def matchViewsByFilePattern (t r : SfMData) (reduce : String → Option String) :
    List (IndexT × IndexT) :=
  (t.views.keys.sort (· ≤ ·)).filterMap (fun idA =>
    match t.views.lookup idA with
    | some vA =>
      match reduce vA.path with
      | some key =>
        match ((r.views.keys.sort (· ≤ ·)).filter (fun idB =>
            match r.views.lookup idB with
            | some vB => reduce vB.path == some key
            | none => false)) with
        | [idB] => some (idA, idB)
        | _ => none
      | none => none
    | none => none)

/-- Matching method selector, embedded from the source enum
`EMatchingMethod` (`main_sfmTransfer.cpp` lines 33-38). -/
inductive EMatchingMethod where
  | FROM_VIEWID
  | FROM_FILEPATH
  | FROM_METADATA
deriving DecidableEq

/-- The matching dispatch of `main` (`main_sfmTransfer.cpp` lines 184-207):
FROM_VIEWID pairs each common view ID with itself; the other two methods
call the library matchers. -/
def computeCorrespondences (m : EMatchingMethod) (reduce : String → Option String)
    (metadataMatchingList : List String) (t r : SfMData) : List (IndexT × IndexT) :=
  match m with
  | .FROM_VIEWID => (getCommonViews t r).map (fun id => (id, id))
  | .FROM_FILEPATH => matchViewsByFilePattern t r reduce
  | .FROM_METADATA => matchViewsByMetadataMatching t r metadataMatchingList

/-- Failure modes of the transfer loop: a `.at`/pointer lookup on a key
that does not resolve, mirroring the unguarded lookups in
`main_sfmTransfer.cpp` lines 230-244. -/
inductive TransferError where
  | missingView
  | missingRefPose
  | missingTargetIntrinsic
  | missingRefIntrinsic
deriving DecidableEq

/-- Pose transfer step (`main_sfmTransfer.cpp` lines 238-241):
`sfmDataIn.getPoses()[viewA.getPoseId()] = sfmDataInRef.getPoses().at(viewB.getPoseId())`
— overwrite-or-insert at the target view's pose ID; `.at` on the
reference side fails if the reference pose ID does not resolve. -/
def doTransferPoses (tp : Bool) (refS : SfMData) (vA vB : View) (s : SfMData) :
    Except TransferError SfMData :=
  if tp then
    match refS.poses.lookup vB.poseId with
    | some p => .ok { s with poses := s.poses.insert vA.poseId p }
    | none => .error .missingRefPose
  else .ok s

/-- Intrinsic transfer step (`main_sfmTransfer.cpp` lines 242-245):
`sfmDataIn.getIntrinsicPtr(viewA.getIntrinsicId())->assign(*sfmDataInRef.getIntrinsicPtr(viewB.getIntrinsicId()))`
— in-place assignment onto the target's existing intrinsic entry; either
lookup fails if its intrinsic ID does not resolve. -/
def doTransferIntrinsics (ti : Bool) (refS : SfMData) (vA vB : View) (s : SfMData) :
    Except TransferError SfMData :=
  if ti then
    match s.intrinsics.lookup vA.intrinsicId with
    | some _ =>
      match refS.intrinsics.lookup vB.intrinsicId with
      | some w => .ok { s with intrinsics := s.intrinsics.insert vA.intrinsicId w }
      | none => .error .missingRefIntrinsic
    | none => .error .missingTargetIntrinsic
  else .ok s

/-- One iteration of the transfer loop (`main_sfmTransfer.cpp` lines
222-247): gate on (target incomplete ∧ reference complete), fetch both
views, skip rig views, then conditionally transfer pose and intrinsic.
The reference scene is read-only throughout, so only the target scene is
returned. -/
def transferPair (tp ti : Bool) (refS s : SfMData) (c : IndexT × IndexT) :
    Except TransferError SfMData :=
  if !(s.isPoseAndIntrinsicDefined c.1) && refS.isPoseAndIntrinsicDefined c.2 then
    match s.views.lookup c.1, refS.views.lookup c.2 with
    | some vA, some vB =>
      if vA.isPartOfRig || vB.isPartOfRig then .ok s
      else (doTransferPoses tp refS vA vB s).bind (doTransferIntrinsics ti refS vA vB)
    | _, _ => .error .missingView
  else .ok s

/-- The whole transfer loop over the correspondence list
(`main_sfmTransfer.cpp` lines 222-247). -/
def transferAll (tp ti : Bool) (refS : SfMData) :
    List (IndexT × IndexT) → SfMData → Except TransferError SfMData
  | [], s => .ok s
  | c :: cs, s => (transferPair tp ti refS s c).bind (transferAll tp ti refS cs)

/-- Exit status of the tool. -/
inductive ExitStatus where
  | success
  | failure
deriving DecidableEq

/-- Observable outcome of a run: the exit status and the scene actually
persisted by the saver (none when nothing was saved). -/
structure RunResult where
  exitStatus : ExitStatus
  saved : Option SfMData
deriving DecidableEq

/-- The transfer phase of `main` (`main_sfmTransfer.cpp` lines 216-248):
with both flags false the loop body is skipped entirely ("Nothing to do"
is logged at error level but execution continues); otherwise the loop
runs. -/
def runTransferPhase (tp ti : Bool) (refS : SfMData) (cs : List (IndexT × IndexT))
    (s : SfMData) : Except TransferError SfMData :=
  if !tp && !ti then .ok s
  else transferAll tp ti refS cs s

/-- Control flow of `main` after the two scenes are loaded
(`main_sfmTransfer.cpp` lines 184-258): match, fail on an empty
correspondence set, transfer, save.  `saveOk` abstracts the external
saver's success; an uncaught lookup failure in the loop aborts the
process before any save. -/
def runTool (m : EMatchingMethod) (reduce : String → Option String)
    (metadataMatchingList : List String) (tp ti : Bool)
    (s refS : SfMData) (saveOk : Bool) : RunResult :=
  let cs := computeCorrespondences m reduce metadataMatchingList s refS
  if cs.isEmpty then { exitStatus := .failure, saved := none }
  else
    match runTransferPhase tp ti refS cs s with
    | .error _ => { exitStatus := .failure, saved := none }
    | .ok s2 =>
      if saveOk then { exitStatus := .success, saved := some s2 }
      else { exitStatus := .failure, saved := none }

/-! ## Shape lemmas for the per-pair step -/

theorem doTransferPoses_false (refS : SfMData) (vA vB : View) (s : SfMData) :
    doTransferPoses false refS vA vB s = .ok s := rfl

theorem doTransferIntrinsics_false (refS : SfMData) (vA vB : View) (s : SfMData) :
    doTransferIntrinsics false refS vA vB s = .ok s := rfl

theorem doTransferPoses_ok_shape {tp : Bool} {refS : SfMData} {vA vB : View}
    {s s1 : SfMData} (h : doTransferPoses tp refS vA vB s = .ok s1) :
    s1.views = s.views ∧ s1.intrinsics = s.intrinsics ∧
      (∀ k, k ∈ s.poses → k ∈ s1.poses) ∧ (tp = false → s1 = s) := by
  unfold doTransferPoses at h
  split at h
  · rename_i htp
    split at h
    · rename_i p hp
      injection h with h
      subst h
      refine ⟨rfl, rfl, ?_, ?_⟩
      · intro k hk
        simp only [Finmap.mem_insert]
        exact Or.inr hk
      · intro hf; simp [htp] at hf
    · exact absurd h (by simp)
  · injection h with h
    subst h
    exact ⟨rfl, rfl, fun k hk => hk, fun _ => rfl⟩

theorem doTransferIntrinsics_ok_shape {ti : Bool} {refS : SfMData} {vA vB : View}
    {s s1 : SfMData} (h : doTransferIntrinsics ti refS vA vB s = .ok s1) :
    s1.views = s.views ∧ s1.poses = s.poses ∧
      (∀ k, k ∈ s1.intrinsics ↔ k ∈ s.intrinsics) ∧ (ti = false → s1 = s) := by
  unfold doTransferIntrinsics at h
  split at h
  · rename_i hti
    split at h
    · rename_i w0 hw0
      split at h
      · rename_i w hw
        injection h with h
        subst h
        refine ⟨rfl, rfl, ?_, ?_⟩
        · intro k
          simp only [Finmap.mem_insert]
          constructor
          · rintro (rfl | hk)
            · exact Finmap.lookup_isSome.mp (by simp [hw0])
            · exact hk
          · exact Or.inr
        · intro hf; simp [hti] at hf
      · exact absurd h (by simp)
    · exact absurd h (by simp)
  · injection h with h
    subst h
    exact ⟨rfl, rfl, fun k => Iff.rfl, fun _ => rfl⟩

theorem transferPair_gate_false {tp ti : Bool} {refS s : SfMData} {c : IndexT × IndexT}
    (h : (!(s.isPoseAndIntrinsicDefined c.1) && refS.isPoseAndIntrinsicDefined c.2) = false) :
    transferPair tp ti refS s c = .ok s := by
  unfold transferPair
  simp [h]

theorem transferPair_rig {tp ti : Bool} {refS s : SfMData} {c : IndexT × IndexT}
    {vA vB : View} (hA : s.views.lookup c.1 = some vA)
    (hB : refS.views.lookup c.2 = some vB)
    (hrig : (vA.isPartOfRig || vB.isPartOfRig) = true) :
    transferPair tp ti refS s c = .ok s := by
  unfold transferPair
  split
  · rw [hA, hB]
    simp [hrig]
  · rfl

theorem transferPair_ok_shape {tp ti : Bool} {refS s s2 : SfMData} {c : IndexT × IndexT}
    (h : transferPair tp ti refS s c = .ok s2) :
    s2.views = s.views ∧
      (∀ k, k ∈ s.poses → k ∈ s2.poses) ∧
      (∀ k, k ∈ s2.intrinsics ↔ k ∈ s.intrinsics) ∧
      (tp = false → s2.poses = s.poses) ∧
      (ti = false → s2.intrinsics = s.intrinsics) := by
  unfold transferPair at h
  split at h
  · split at h
    · rename_i vA vB hA hB
      split at h
      · injection h with h
        subst h
        exact ⟨rfl, fun k hk => hk, fun k => Iff.rfl, fun _ => rfl, fun _ => rfl⟩
      · cases hp : doTransferPoses tp refS vA vB s with
        | error e => rw [hp] at h; exact absurd h (by simp [Except.bind])
        | ok s1 =>
          rw [hp] at h
          simp only [Except.bind] at h
          obtain ⟨hv1, hi1, hpm1, hfp1⟩ := doTransferPoses_ok_shape hp
          obtain ⟨hv2, hp2, him2, hfi2⟩ := doTransferIntrinsics_ok_shape h
          refine ⟨hv2.trans hv1, ?_, ?_, ?_, ?_⟩
          · intro k hk
            rw [hp2]
            exact hpm1 k hk
          · intro k
            rw [him2 k, hi1]
          · intro htp
            rw [hp2, hfp1 htp]
          · intro hti
            rw [hfi2 hti, hi1]
    · exact absurd h (by simp)
  · injection h with h
    subst h
    exact ⟨rfl, fun k hk => hk, fun k => Iff.rfl, fun _ => rfl, fun _ => rfl⟩

theorem transferAll_ok_shape {tp ti : Bool} {refS : SfMData} :
    ∀ {cs : List (IndexT × IndexT)} {s s2 : SfMData},
      transferAll tp ti refS cs s = .ok s2 →
      s2.views = s.views ∧
        (∀ k, k ∈ s.poses → k ∈ s2.poses) ∧
        (∀ k, k ∈ s2.intrinsics ↔ k ∈ s.intrinsics) ∧
        (tp = false → s2.poses = s.poses) ∧
        (ti = false → s2.intrinsics = s.intrinsics) := by
  intro cs
  induction cs with
  | nil =>
    intro s s2 h
    injection h with h
    subst h
    exact ⟨rfl, fun k hk => hk, fun k => Iff.rfl, fun _ => rfl, fun _ => rfl⟩
  | cons c cs ih =>
    intro s s2 h
    unfold transferAll at h
    cases hp : transferPair tp ti refS s c with
    | error e => rw [hp] at h; exact absurd h (by simp [Except.bind])
    | ok s1 =>
      rw [hp] at h
      simp only [Except.bind] at h
      obtain ⟨hv1, hpm1, him1, hfp1, hfi1⟩ := transferPair_ok_shape hp
      obtain ⟨hv2, hpm2, him2, hfp2, hfi2⟩ := ih h
      refine ⟨hv2.trans hv1, ?_, ?_, ?_, ?_⟩
      · intro k hk
        exact hpm2 k (hpm1 k hk)
      · intro k
        rw [him2 k, him1 k]
      · intro htp
        rw [hfp2 htp, hfp1 htp]
      · intro hti
        rw [hfi2 hti, hfi1 hti]

instance {ε α : Type} [DecidableEq ε] [DecidableEq α] : DecidableEq (Except ε α) := fun a b =>
  match a, b with
  | .ok x, .ok y =>
    if h : x = y then isTrue (by rw [h]) else isFalse (fun hc => h (Except.ok.inj hc))
  | .error e, .error f =>
    if h : e = f then isTrue (by rw [h]) else isFalse (fun hc => h (Except.error.inj hc))
  | .ok _, .error _ => isFalse (fun hc => Except.noConfusion hc)
  | .error _, .ok _ => isFalse (fun hc => Except.noConfusion hc)

theorem isPoseAndIntrinsicDefined_mono {s s2 : SfMData}
    (hv : s2.views = s.views) (hpm : ∀ k, k ∈ s.poses → k ∈ s2.poses)
    (him : ∀ k, k ∈ s2.intrinsics ↔ k ∈ s.intrinsics) (viewId : IndexT)
    (hd : s.isPoseAndIntrinsicDefined viewId = true) :
    s2.isPoseAndIntrinsicDefined viewId = true := by
  unfold SfMData.isPoseAndIntrinsicDefined at hd ⊢
  rw [hv]
  cases hl : s.views.lookup viewId with
  | none => rw [hl] at hd; exact absurd hd (by simp)
  | some v =>
    rw [hl] at hd
    simp only [Bool.and_eq_true] at hd ⊢
    obtain ⟨h1, h2⟩ := hd
    exact ⟨Finmap.lookup_isSome.mpr (hpm _ (Finmap.lookup_isSome.mp h1)),
      Finmap.lookup_isSome.mpr ((him _).mpr (Finmap.lookup_isSome.mp h2))⟩

/-! ## Example data used by the witnesses -/

/-- A plain (non-rig) view whose pose and intrinsic IDs are both 1. -/
def exView : View :=
  { poseId := 1, intrinsicId := 1, isPartOfRig := false, path := "a.jpg",
    metadata := [("Make", "cam")] }

/-- The same view but belonging to a rig. -/
def exViewRig : View := { exView with isPartOfRig := true }

/-- A complete reference scene: view 1 with pose 7 and intrinsic 8. -/
def exRefScene : SfMData :=
  { views := Finmap.singleton 1 exView, poses := Finmap.singleton 1 7,
    intrinsics := Finmap.singleton 1 8 }

/-- A complete target scene (pose 3, intrinsic 4 for view 1). -/
def exCompleteTarget : SfMData :=
  { views := Finmap.singleton 1 exView, poses := Finmap.singleton 1 3,
    intrinsics := Finmap.singleton 1 4 }

/-- An incomplete target scene: view 1 has an intrinsic but no pose. -/
def exIncompleteTarget : SfMData :=
  { views := Finmap.singleton 1 exView, poses := ∅,
    intrinsics := Finmap.singleton 1 4 }

/-- A target scene whose view 1 has a pose but whose intrinsic ID resolves
to nothing — incomplete, so it passes the gate, yet the intrinsic
assignment has no entry to assign onto. -/
def exNoIntrinsicTarget : SfMData :=
  { views := Finmap.singleton 1 exView, poses := Finmap.singleton 1 3,
    intrinsics := ∅ }

/-- An incomplete target scene whose view 1 belongs to a rig. -/
def exRigTarget : SfMData :=
  { views := Finmap.singleton 1 exViewRig, poses := ∅,
    intrinsics := Finmap.singleton 1 4 }

/-- A scene whose only view has ID 2 (disjoint from the others). -/
def exOtherIdScene : SfMData :=
  { views := Finmap.singleton 2 exView, poses := ∅, intrinsics := ∅ }

/-! ## Claims -/

/-- **C1**: the transfer loop mutates the target scene for a pair only if
the target view is not pose-and-intrinsic-complete and the matched
reference view is: whenever the gate fails — the target view is already
complete, or the reference view is incomplete — the pair leaves the
target scene exactly as it was (and the reference scene is read-only by
construction). -/
theorem transferPair_requires_gate {tp ti : Bool} {refS s : SfMData} {c : IndexT × IndexT}
    (h : s.isPoseAndIntrinsicDefined c.1 = true ∨ refS.isPoseAndIntrinsicDefined c.2 = false) :
    transferPair tp ti refS s c = .ok s := by
  apply transferPair_gate_false
  rcases h with h | h <;> simp [h]

theorem transferPair_requires_gate_witness :
    (exCompleteTarget.isPoseAndIntrinsicDefined 1 = true ∨
      exRefScene.isPoseAndIntrinsicDefined 1 = false) ∧
    transferPair true true exRefScene exCompleteTarget (1, 1) = .ok exCompleteTarget :=
  ⟨Or.inl (by decide), transferPair_requires_gate (Or.inl (by decide))⟩

/-- **C3**: a pair in which either view belongs to a rig mutates neither
scene: the target is returned unchanged (the reference scene is read-only
by construction) and the step succeeds, so processing continues with the
next pair. -/
theorem rig_pair_skipped {tp ti : Bool} {refS s : SfMData} {c : IndexT × IndexT} {vA vB : View}
    (hA : s.views.lookup c.1 = some vA) (hB : refS.views.lookup c.2 = some vB)
    (hrig : (vA.isPartOfRig || vB.isPartOfRig) = true) :
    transferPair tp ti refS s c = .ok s :=
  transferPair_rig hA hB hrig

theorem rig_pair_skipped_witness :
    exRigTarget.views.lookup 1 = some exViewRig ∧
    exRefScene.views.lookup 1 = some exView ∧
    (exViewRig.isPartOfRig || exView.isPartOfRig) = true ∧
    transferPair true true exRefScene exRigTarget (1, 1) = .ok exRigTarget :=
  ⟨by decide, by decide, by decide,
    @rig_pair_skipped true true exRefScene exRigTarget (1, 1) exViewRig exView
      (by decide) (by decide) (by decide)⟩

/-- **C5**: with `transferPoses = true` and `transferIntrinsics = false`,
a successful run of the transfer loop leaves the target scene's intrinsic
table (and its view table) exactly as they were; only the pose table can
change. -/
theorem transfer_poses_only_intrinsics_unchanged {refS : SfMData}
    {cs : List (IndexT × IndexT)} {s s2 : SfMData}
    (h : transferAll true false refS cs s = .ok s2) :
    s2.intrinsics = s.intrinsics ∧ s2.views = s.views :=
  ⟨(transferAll_ok_shape h).2.2.2.2 rfl, (transferAll_ok_shape h).1⟩

theorem transfer_poses_only_intrinsics_unchanged_witness :
    transferAll true false exRefScene [(1, 1)] exIncompleteTarget =
      .ok { exIncompleteTarget with poses := exIncompleteTarget.poses.insert 1 7 } ∧
    ({ exIncompleteTarget with poses := exIncompleteTarget.poses.insert 1 7 } :
        SfMData).intrinsics = exIncompleteTarget.intrinsics :=
  ⟨by decide,
    (@transfer_poses_only_intrinsics_unchanged exRefScene [(1, 1)] exIncompleteTarget
      { exIncompleteTarget with poses := exIncompleteTarget.poses.insert 1 7 }
      (by decide)).1⟩

/-- **C7**: By-Metadata matching invoked with an empty metadata key list
produces an empty correspondence set, whatever the two scenes contain. -/
theorem metadata_matching_empty_keys (t r : SfMData) :
    matchViewsByMetadataMatching t r [] = [] := by
  simp [matchViewsByMetadataMatching]

/-- **C10**: the joint-completeness gate admits a target view whose
intrinsic ID does not resolve (any incomplete target passes), and for
such a view, with `transferIntrinsics = true`, the unguarded intrinsic
lookup is reached with no entry to assign onto: its error branch fires
instead of a per-pair skip. -/
theorem gate_admits_missing_target_intrinsic {tp : Bool} {refS s : SfMData}
    {c : IndexT × IndexT} {vA vB : View}
    (hA : s.views.lookup c.1 = some vA) (hB : refS.views.lookup c.2 = some vB)
    (hrefComplete : refS.isPoseAndIntrinsicDefined c.2 = true)
    (hrig : (vA.isPartOfRig || vB.isPartOfRig) = false)
    (hmiss : s.intrinsics.lookup vA.intrinsicId = none) :
    s.isPoseAndIntrinsicDefined c.1 = false ∧
      transferPair tp true refS s c = .error .missingTargetIntrinsic := by
  have hgate1 : s.isPoseAndIntrinsicDefined c.1 = false := by
    simp [SfMData.isPoseAndIntrinsicDefined, hA, hmiss]
  refine ⟨hgate1, ?_⟩
  have hp : ∃ p, refS.poses.lookup vB.poseId = some p := by
    unfold SfMData.isPoseAndIntrinsicDefined at hrefComplete
    rw [hB] at hrefComplete
    simp only [Bool.and_eq_true, Option.isSome_iff_exists] at hrefComplete
    exact hrefComplete.1
  obtain ⟨p, hp⟩ := hp
  unfold transferPair
  rw [hgate1, hrefComplete, hA, hB]
  simp only [Bool.not_false, Bool.and_self, if_true, hrig, Bool.false_eq_true, if_false]
  cases tp with
  | false => simp [doTransferPoses, Except.bind, doTransferIntrinsics, hmiss]
  | true => simp [doTransferPoses, hp, Except.bind, doTransferIntrinsics, hmiss]

theorem gate_admits_missing_target_intrinsic_witness :
    exNoIntrinsicTarget.views.lookup 1 = some exView ∧
    exRefScene.views.lookup 1 = some exView ∧
    exRefScene.isPoseAndIntrinsicDefined 1 = true ∧
    (exView.isPartOfRig || exView.isPartOfRig) = false ∧
    exNoIntrinsicTarget.intrinsics.lookup exView.intrinsicId = none ∧
    (exNoIntrinsicTarget.isPoseAndIntrinsicDefined 1 = false ∧
      transferPair true true exRefScene exNoIntrinsicTarget (1, 1) =
        .error .missingTargetIntrinsic) :=
  ⟨by decide, by decide, by decide, by decide, by decide,
    @gate_admits_missing_target_intrinsic true exRefScene exNoIntrinsicTarget (1, 1)
      exView exView (by decide) (by decide) (by decide) (by decide) (by decide)⟩

/-- **C2** counterexample: a pair that passes the completeness gate but
whose target view belongs to a rig gets no pose copy even with
`transferPoses = true` — the pose table stays unchanged and differs from
what the claimed copy would have produced. -/
theorem pose_copy_on_gate_alone_counterexample :
    (!(exRigTarget.isPoseAndIntrinsicDefined 1) && exRefScene.isPoseAndIntrinsicDefined 1)
        = true ∧
    exRefScene.poses.lookup exViewRig.poseId = some 7 ∧
    transferPair true true exRefScene exRigTarget (1, 1) = .ok exRigTarget ∧
    exRigTarget.poses ≠ exRigTarget.poses.insert exViewRig.poseId 7 := by
  refine ⟨by decide, by decide, by decide, by decide⟩

/-- **C2** (amended): for a pair that passes the completeness gate *and is
not skipped by the rig check*, if `transferPoses` is set and the pair step
succeeds, the reference view's resolved pose (looked up by the reference
view's pose ID in the reference pose table) is written into the target
pose table at the target view's own pose ID, inserting or overwriting. -/
theorem pose_copied_on_eligible_pair {ti : Bool} {refS s s2 : SfMData}
    {c : IndexT × IndexT} {vA vB : View}
    (hA : s.views.lookup c.1 = some vA) (hB : refS.views.lookup c.2 = some vB)
    (hgate : (!(s.isPoseAndIntrinsicDefined c.1) && refS.isPoseAndIntrinsicDefined c.2) = true)
    (hrig : (vA.isPartOfRig || vB.isPartOfRig) = false)
    (h : transferPair true ti refS s c = .ok s2) :
    ∃ p, refS.poses.lookup vB.poseId = some p ∧ s2.poses = s.poses.insert vA.poseId p := by
  unfold transferPair at h
  rw [hgate] at h
  simp only [if_true] at h
  rw [hA, hB] at h
  simp only [hrig, Bool.false_eq_true, if_false] at h
  cases hp : refS.poses.lookup vB.poseId with
  | none =>
    unfold doTransferPoses at h
    rw [hp] at h
    simp [Except.bind] at h
  | some p =>
    unfold doTransferPoses at h
    rw [hp] at h
    simp only [if_true, Except.bind] at h
    refine ⟨p, rfl, ?_⟩
    have := (doTransferIntrinsics_ok_shape h).2.1
    rw [this]

theorem pose_copied_on_eligible_pair_witness :
    exIncompleteTarget.views.lookup 1 = some exView ∧
    exRefScene.views.lookup 1 = some exView ∧
    (!(exIncompleteTarget.isPoseAndIntrinsicDefined 1) &&
      exRefScene.isPoseAndIntrinsicDefined 1) = true ∧
    (exView.isPartOfRig || exView.isPartOfRig) = false ∧
    transferPair true true exRefScene exIncompleteTarget (1, 1) =
      .ok { exIncompleteTarget with
              poses := exIncompleteTarget.poses.insert 1 7,
              intrinsics := exIncompleteTarget.intrinsics.insert 1 8 } ∧
    (∃ p, exRefScene.poses.lookup exView.poseId = some p ∧
      ({ exIncompleteTarget with
           poses := exIncompleteTarget.poses.insert 1 7,
           intrinsics := exIncompleteTarget.intrinsics.insert 1 8 } : SfMData).poses =
        exIncompleteTarget.poses.insert exView.poseId p) :=
  ⟨by decide, by decide, by decide, by decide, by decide,
    @pose_copied_on_eligible_pair true exRefScene exIncompleteTarget
      { exIncompleteTarget with
          poses := exIncompleteTarget.poses.insert 1 7,
          intrinsics := exIncompleteTarget.intrinsics.insert 1 8 }
      (1, 1) exView exView (by decide) (by decide) (by decide) (by decide) (by decide)⟩

/-- **C8**: when matching produces zero correspondence pairs, the tool
exits with a non-zero status, performs no transfer and saves nothing. -/
theorem empty_correspondences_fatal {m : EMatchingMethod} {reduce : String → Option String}
    {mdl : List String} {tp ti : Bool} {s refS : SfMData} {saveOk : Bool}
    (h : computeCorrespondences m reduce mdl s refS = []) :
    runTool m reduce mdl tp ti s refS saveOk = { exitStatus := .failure, saved := none } := by
  unfold runTool
  simp [h]

theorem empty_correspondences_fatal_witness :
    computeCorrespondences .FROM_VIEWID (fun _ => none) [] exIncompleteTarget exOtherIdScene
        = [] ∧
    runTool .FROM_VIEWID (fun _ => none) [] true true exIncompleteTarget exOtherIdScene true =
      { exitStatus := .failure, saved := none } := by
  have h1 : getCommonViews exIncompleteTarget exOtherIdScene = [] := by
    unfold getCommonViews
    have h2 : exIncompleteTarget.views.keys ∩ exOtherIdScene.views.keys = (∅ : Finset IndexT) := by
      decide
    rw [h2, Finset.sort_empty]
  have hc : computeCorrespondences .FROM_VIEWID (fun _ => none) [] exIncompleteTarget
      exOtherIdScene = [] := by
    simp [computeCorrespondences, h1]
  exact ⟨hc, empty_correspondences_fatal hc⟩

/-- **C9**: with both transfer flags false and a non-empty correspondence
set, the tool performs no transfer but still saves the unmodified target
scene, exiting successfully exactly when the save succeeds. -/
theorem no_op_flags_still_saves {m : EMatchingMethod} {reduce : String → Option String}
    {mdl : List String} {s refS : SfMData} {saveOk : Bool}
    (h : computeCorrespondences m reduce mdl s refS ≠ []) :
    runTool m reduce mdl false false s refS saveOk =
      { exitStatus := if saveOk then .success else .failure,
        saved := if saveOk then some s else none } := by
  unfold runTool runTransferPhase
  have hne : (computeCorrespondences m reduce mdl s refS).isEmpty = false := by
    cases hc : computeCorrespondences m reduce mdl s refS with
    | nil => exact absurd hc h
    | cons a l => rfl
  simp only [hne, Bool.false_eq_true, if_false, Bool.not_false, Bool.and_self, if_true]
  cases saveOk <;> simp

theorem no_op_flags_still_saves_witness :
    computeCorrespondences .FROM_VIEWID (fun _ => none) [] exCompleteTarget exRefScene
        ≠ [] ∧
    runTool .FROM_VIEWID (fun _ => none) [] false false exCompleteTarget exRefScene true =
      { exitStatus := .success, saved := some exCompleteTarget } := by
  have h1 : getCommonViews exCompleteTarget exRefScene = [1] := by
    unfold getCommonViews
    have h2 : exCompleteTarget.views.keys ∩ exRefScene.views.keys = ({1} : Finset IndexT) := by
      decide
    rw [h2, Finset.sort_singleton]
  have hc : computeCorrespondences .FROM_VIEWID (fun _ => none) [] exCompleteTarget
      exRefScene = [(1, 1)] := by
    simp [computeCorrespondences, h1]
  have hne : computeCorrespondences .FROM_VIEWID (fun _ => none) [] exCompleteTarget
      exRefScene ≠ [] := by
    rw [hc]
    exact List.cons_ne_nil _ _
  exact ⟨hne, no_op_flags_still_saves hne⟩

/-- **C6**: the By-View-Identity strategy produces exactly one
correspondence `(id, id)` for each ViewId present in both scenes' view
tables — the list is duplicate-free, and a pair belongs to it iff its two
components are equal and that ID is in both view tables. -/
theorem viewid_matching_is_id_intersection (reduce : String → Option String)
    (mdl : List String) (t r : SfMData) :
    (computeCorrespondences .FROM_VIEWID reduce mdl t r).Nodup ∧
    ∀ a b : IndexT, ((a, b) ∈ computeCorrespondences .FROM_VIEWID reduce mdl t r ↔
      (b = a ∧ a ∈ t.views ∧ a ∈ r.views)) := by
  constructor
  · refine List.Nodup.map ?_ (Finset.sort_nodup _ _)
    intro x y hxy
    exact congrArg Prod.fst hxy
  · intro a b
    constructor
    · intro hmem
      simp only [computeCorrespondences, getCommonViews, List.mem_map] at hmem
      obtain ⟨x, hx, hxy⟩ := hmem
      have hax : x = a := congrArg Prod.fst hxy
      have hbx : x = b := congrArg Prod.snd hxy
      subst hax
      rw [Finset.mem_sort, Finset.mem_inter, Finmap.mem_keys, Finmap.mem_keys] at hx
      exact ⟨hbx.symm, hx.1, hx.2⟩
    · rintro ⟨hba, ht, hr⟩
      subst hba
      simp only [computeCorrespondences, getCommonViews, List.mem_map]
      refine ⟨b, ?_, rfl⟩
      rw [Finset.mem_sort, Finset.mem_inter, Finmap.mem_keys, Finmap.mem_keys]
      exact ⟨ht, hr⟩

/-! ## Idempotence of the transfer loop -/

theorem transferPair_gate_enter {tp ti : Bool} {refS s : SfMData} {c : IndexT × IndexT}
    {vA vB : View}
    (hd1 : s.isPoseAndIntrinsicDefined c.1 = false)
    (hd2 : refS.isPoseAndIntrinsicDefined c.2 = true)
    (hA : s.views.lookup c.1 = some vA) (hB : refS.views.lookup c.2 = some vB)
    (hrig : (vA.isPartOfRig || vB.isPartOfRig) = false) :
    transferPair tp ti refS s c =
      (doTransferPoses tp refS vA vB s).bind (doTransferIntrinsics ti refS vA vB) := by
  unfold transferPair
  rw [hd1, hd2]
  simp only [Bool.not_false, Bool.and_self, if_true]
  rw [hA, hB]
  simp only [hrig, Bool.false_eq_true, if_false]

theorem refComplete_pose_some {refS : SfMData} {x : IndexT} {vB : View}
    (hB : refS.views.lookup x = some vB)
    (hd2 : refS.isPoseAndIntrinsicDefined x = true) :
    ∃ p, refS.poses.lookup vB.poseId = some p := by
  unfold SfMData.isPoseAndIntrinsicDefined at hd2
  rw [hB] at hd2
  simp only [Bool.and_eq_true, Option.isSome_iff_exists] at hd2
  exact hd2.1

theorem refComplete_intr_some {refS : SfMData} {x : IndexT} {vB : View}
    (hB : refS.views.lookup x = some vB)
    (hd2 : refS.isPoseAndIntrinsicDefined x = true) :
    ∃ w, refS.intrinsics.lookup vB.intrinsicId = some w := by
  unfold SfMData.isPoseAndIntrinsicDefined at hd2
  rw [hB] at hd2
  simp only [Bool.and_eq_true, Option.isSome_iff_exists] at hd2
  exact hd2.2

theorem transferPair_both_ok_classify {refS s s1 : SfMData} {c : IndexT × IndexT}
    (h : transferPair true true refS s c = .ok s1) :
    s1.isPoseAndIntrinsicDefined c.1 = true ∨
    refS.isPoseAndIntrinsicDefined c.2 = false ∨
    (s1 = s ∧ ∃ vA vB, s.views.lookup c.1 = some vA ∧ refS.views.lookup c.2 = some vB ∧
      (vA.isPartOfRig || vB.isPartOfRig) = true) := by
  cases hd2 : refS.isPoseAndIntrinsicDefined c.2 with
  | false => exact Or.inr (Or.inl rfl)
  | true =>
    cases hd1 : s.isPoseAndIntrinsicDefined c.1 with
    | true =>
      have he : transferPair true true refS s c = .ok s :=
        transferPair_gate_false (by simp [hd1])
      rw [he] at h
      injection h with h
      subst h
      exact Or.inl hd1
    | false =>
      cases hA : s.views.lookup c.1 with
      | none =>
        exfalso
        unfold transferPair at h
        rw [hd1, hd2] at h
        simp only [Bool.not_false, Bool.and_self, if_true] at h
        rw [hA] at h
        cases hB : refS.views.lookup c.2 <;> rw [hB] at h <;> exact absurd h (by simp)
      | some vA =>
        cases hB : refS.views.lookup c.2 with
        | none =>
          exfalso
          unfold SfMData.isPoseAndIntrinsicDefined at hd2
          rw [hB] at hd2
          exact absurd hd2 (by simp)
        | some vB =>
          cases hrig : vA.isPartOfRig || vB.isPartOfRig with
          | true =>
            rw [transferPair_rig hA hB hrig] at h
            injection h with h
            subst h
            exact Or.inr (Or.inr ⟨rfl, vA, vB, rfl, rfl, hrig⟩)
          | false =>
            rw [transferPair_gate_enter hd1 hd2 hA hB hrig] at h
            obtain ⟨p, hpp⟩ := refComplete_pose_some hB hd2
            unfold doTransferPoses at h
            rw [hpp] at h
            simp only [if_true, Except.bind] at h
            unfold doTransferIntrinsics at h
            cases hti : Finmap.lookup vA.intrinsicId
                ({ s with poses := s.poses.insert vA.poseId p } : SfMData).intrinsics with
            | none => rw [hti] at h; simp at h
            | some w0 =>
              rw [hti] at h
              cases htr : refS.intrinsics.lookup vB.intrinsicId with
              | none => rw [htr] at h; simp at h
              | some w =>
                rw [htr] at h
                simp only [if_true] at h
                injection h with h
                subst h
                left
                unfold SfMData.isPoseAndIntrinsicDefined
                simp only [hA]
                simp [Finmap.lookup_insert]

theorem transferAll_idem_both {refS : SfMData} :
    ∀ {cs : List (IndexT × IndexT)} {s s2 : SfMData},
      transferAll true true refS cs s = .ok s2 →
      transferAll true true refS cs s2 = .ok s2 := by
  intro cs
  induction cs with
  | nil =>
    intro s s2 h
    injection h with h
    subst h
    rfl
  | cons c cs ih =>
    intro s s2 h
    unfold transferAll at h ⊢
    cases hp : transferPair true true refS s c with
    | error e => rw [hp] at h; exact absurd h (by simp [Except.bind])
    | ok s1 =>
      rw [hp] at h
      simp only [Except.bind] at h
      have hpair2 : transferPair true true refS s2 c = .ok s2 := by
        rcases transferPair_both_ok_classify hp with hd | hd | ⟨hs, vA, vB, hA, hB, hrig⟩
        · obtain ⟨hv, hpm, him, _, _⟩ := transferAll_ok_shape h
          have hd2 := isPoseAndIntrinsicDefined_mono hv hpm him c.1 hd
          exact transferPair_gate_false (by simp [hd2])
        · exact transferPair_gate_false (by simp [hd])
        · subst hs
          obtain ⟨hv, _, _, _, _⟩ := transferAll_ok_shape h
          have hA2 : s2.views.lookup c.1 = some vA := by rw [hv]; exact hA
          exact transferPair_rig hA2 hB hrig
      rw [hpair2]
      simp only [Except.bind]
      exact ih h

theorem transferAll_idem_none {refS : SfMData} {cs : List (IndexT × IndexT)} {s s2 : SfMData}
    (h : transferAll false false refS cs s = .ok s2) :
    transferAll false false refS cs s2 = .ok s2 := by
  obtain ⟨hv, _, _, hfp, hfi⟩ := transferAll_ok_shape h
  have hs : s2 = s := SfMData.ext hv (hfp rfl) (hfi rfl)
  rw [hs] at h ⊢
  exact h


theorem isDefined_view_some {s : SfMData} {x : IndexT}
    (hd : s.isPoseAndIntrinsicDefined x = true) : ∃ v, s.views.lookup x = some v := by
  unfold SfMData.isPoseAndIntrinsicDefined at hd
  cases hA : s.views.lookup x with
  | none => rw [hA] at hd; exact absurd hd (by simp)
  | some v => exact ⟨v, rfl⟩

theorem isDefined_true_elim {s : SfMData} {x : IndexT} {v : View}
    (hA : s.views.lookup x = some v) (hd : s.isPoseAndIntrinsicDefined x = true) :
    (s.poses.lookup v.poseId).isSome = true ∧ (s.intrinsics.lookup v.intrinsicId).isSome = true := by
  unfold SfMData.isPoseAndIntrinsicDefined at hd
  rw [hA] at hd
  simpa [Bool.and_eq_true] using hd

theorem isDefined_false_elim {s : SfMData} {x : IndexT} {v : View}
    (hA : s.views.lookup x = some v) (hd : s.isPoseAndIntrinsicDefined x = false) :
    s.poses.lookup v.poseId = none ∨ s.intrinsics.lookup v.intrinsicId = none := by
  unfold SfMData.isPoseAndIntrinsicDefined at hd
  rw [hA] at hd
  have hd2 : ((s.poses.lookup v.poseId).isSome &&
      (s.intrinsics.lookup v.intrinsicId).isSome) = false := hd
  cases hps : s.poses.lookup v.poseId with
  | none => exact Or.inl rfl
  | some p =>
    cases his : s.intrinsics.lookup v.intrinsicId with
    | none => exact Or.inr rfl
    | some w => rw [hps, his] at hd2; exact absurd hd2 (by simp)

theorem transferPair_ok_views_exist {tp ti : Bool} {refS s s1 : SfMData} {c : IndexT × IndexT}
    (hd1 : s.isPoseAndIntrinsicDefined c.1 = false)
    (hd2 : refS.isPoseAndIntrinsicDefined c.2 = true)
    (h : transferPair tp ti refS s c = .ok s1) :
    ∃ vA vB, s.views.lookup c.1 = some vA ∧ refS.views.lookup c.2 = some vB := by
  obtain ⟨vB, hB⟩ := isDefined_view_some hd2
  cases hA : s.views.lookup c.1 with
  | none =>
    exfalso
    unfold transferPair at h
    rw [hd1, hd2] at h
    simp only [Bool.not_false, Bool.and_self, if_true] at h
    rw [hA, hB] at h
    exact absurd h (by simp)
  | some vA => exact ⟨vA, vB, rfl, hB⟩

theorem transferAll_replay_poses {refS : SfMData} :
    ∀ {cs : List (IndexT × IndexT)} {s t s2 : SfMData},
      transferAll true false refS cs s = .ok s2 →
      t.views = s.views →
      t.intrinsics = s.intrinsics →
      (∀ k, t.poses.lookup k = s.poses.lookup k ∨ t.poses.lookup k = s2.poses.lookup k) →
      ∃ t2, transferAll true false refS cs t = .ok t2 ∧
        t2.views = s2.views ∧ t2.intrinsics = s2.intrinsics ∧
        (∀ k, t2.poses.lookup k = s2.poses.lookup k) := by
  intro cs
  induction cs with
  | nil =>
    intro s t s2 h hv hi hp
    injection h with h
    subst h
    exact ⟨t, rfl, hv, hi, fun k => (hp k).elim id id⟩
  | cons c cs ih =>
    intro s t s2 h hv hi hp
    unfold transferAll at h ⊢
    cases hstep : transferPair true false refS s c with
    | error e => rw [hstep] at h; exact absurd h (by simp [Except.bind])
    | ok s1 =>
      rw [hstep] at h
      simp only [Except.bind] at h
      cases hd2 : refS.isPoseAndIntrinsicDefined c.2 with
      | false =>
        have hs1 : s1 = s := by
          rw [transferPair_gate_false (by simp [hd2])] at hstep
          injection hstep with hstep
          exact hstep.symm
        subst hs1
        obtain ⟨t2, ht2, h2v, h2i, h2p⟩ := ih h hv hi hp
        refine ⟨t2, ?_, h2v, h2i, h2p⟩
        rw [transferPair_gate_false (by simp [hd2])]
        simp only [Except.bind]
        exact ht2
      | true =>
        cases hd1 : s.isPoseAndIntrinsicDefined c.1 with
        | true =>
          have hs1 : s1 = s := by
            rw [transferPair_gate_false (by simp [hd1])] at hstep
            injection hstep with hstep
            exact hstep.symm
          subst hs1
          have hdt : t.isPoseAndIntrinsicDefined c.1 = true := by
            obtain ⟨v, hA⟩ := isDefined_view_some hd1
            obtain ⟨hps, his⟩ := isDefined_true_elim hA hd1
            unfold SfMData.isPoseAndIntrinsicDefined
            rw [hv, hA]
            simp only [Bool.and_eq_true]
            constructor
            · rcases hp v.poseId with heq | heq
              · rw [heq]; exact hps
              · rw [heq]
                obtain ⟨_, hpm, _, _, _⟩ := transferAll_ok_shape h
                exact Finmap.lookup_isSome.mpr (hpm _ (Finmap.lookup_isSome.mp hps))
            · rw [hi]; exact his
          obtain ⟨t2, ht2, h2v, h2i, h2p⟩ := ih h hv hi hp
          refine ⟨t2, ?_, h2v, h2i, h2p⟩
          rw [transferPair_gate_false (by simp [hdt])]
          simp only [Except.bind]
          exact ht2
        | false =>
          obtain ⟨vA, vB, hA, hB⟩ := transferPair_ok_views_exist hd1 hd2 hstep
          cases hrig : vA.isPartOfRig || vB.isPartOfRig with
          | true =>
            have hs1 : s1 = s := by
              rw [transferPair_rig hA hB hrig] at hstep
              injection hstep with hstep
              exact hstep.symm
            subst hs1
            have hAt : t.views.lookup c.1 = some vA := by rw [hv]; exact hA
            obtain ⟨t2, ht2, h2v, h2i, h2p⟩ := ih h hv hi hp
            refine ⟨t2, ?_, h2v, h2i, h2p⟩
            rw [transferPair_rig hAt hB hrig]
            simp only [Except.bind]
            exact ht2
          | false =>
            obtain ⟨p, hpp⟩ := refComplete_pose_some hB hd2
            rw [transferPair_gate_enter hd1 hd2 hA hB hrig] at hstep
            unfold doTransferPoses at hstep
            rw [hpp] at hstep
            simp only [if_true, Except.bind, doTransferIntrinsics, Bool.false_eq_true,
              if_false] at hstep
            injection hstep with hstep
            subst hstep
            have hAt : t.views.lookup c.1 = some vA := by rw [hv]; exact hA
            cases hdt : t.isPoseAndIntrinsicDefined c.1 with
            | false =>
              have hstept : transferPair true false refS t c =
                  .ok { t with poses := t.poses.insert vA.poseId p } := by
                rw [transferPair_gate_enter hdt hd2 hAt hB hrig]
                unfold doTransferPoses
                rw [hpp]
                simp [doTransferIntrinsics, Except.bind]
              have hp1 : ∀ k,
                  Finmap.lookup k (t.poses.insert vA.poseId p) =
                    Finmap.lookup k (s.poses.insert vA.poseId p) ∨
                  Finmap.lookup k (t.poses.insert vA.poseId p) = s2.poses.lookup k := by
                intro k
                by_cases hk : k = vA.poseId
                · left
                  rw [hk, Finmap.lookup_insert, Finmap.lookup_insert]
                · have h1 : Finmap.lookup k (t.poses.insert vA.poseId p) = t.poses.lookup k :=
                    Finmap.lookup_insert_of_ne _ hk
                  have h2 : Finmap.lookup k (s.poses.insert vA.poseId p) = s.poses.lookup k :=
                    Finmap.lookup_insert_of_ne _ hk
                  rcases hp k with heq | heq
                  · left; rw [h1, h2]; exact heq
                  · right; rw [h1]; exact heq
              obtain ⟨t2, ht2, h2v, h2i, h2p⟩ :=
                @ih { s with poses := s.poses.insert vA.poseId p }
                  { t with poses := t.poses.insert vA.poseId p } s2 h hv hi hp1
              refine ⟨t2, ?_, h2v, h2i, h2p⟩
              rw [hstept]
              simp only [Except.bind]
              exact ht2
            | true =>
              have hstept : transferPair true false refS t c = .ok t :=
                transferPair_gate_false (by simp [hdt])
              obtain ⟨hpst, hist⟩ := isDefined_true_elim hAt hdt
              have hsnone : s.poses.lookup vA.poseId = none := by
                rcases isDefined_false_elim hA hd1 with hn | hn
                · exact hn
                · exfalso
                  rw [hi, hn] at hist
                  exact absurd hist (by simp)
              have hp1 : ∀ k,
                  t.poses.lookup k = Finmap.lookup k (s.poses.insert vA.poseId p) ∨
                  t.poses.lookup k = s2.poses.lookup k := by
                intro k
                by_cases hk : k = vA.poseId
                · right
                  rcases hp k with heq | heq
                  · exfalso
                    rw [hk, hsnone] at heq
                    rw [heq] at hpst
                    exact absurd hpst (by simp)
                  · exact heq
                · have h2 : Finmap.lookup k (s.poses.insert vA.poseId p) = s.poses.lookup k :=
                    Finmap.lookup_insert_of_ne _ hk
                  rcases hp k with heq | heq
                  · left; rw [h2]; exact heq
                  · right; exact heq
              obtain ⟨t2, ht2, h2v, h2i, h2p⟩ :=
                @ih { s with poses := s.poses.insert vA.poseId p } t s2 h hv hi hp1
              refine ⟨t2, ?_, h2v, h2i, h2p⟩
              rw [hstept]
              simp only [Except.bind]
              exact ht2

theorem isDefined_eq_of_intr_ptwise {s t s2 : SfMData}
    (hv : t.views = s.views) (hps : t.poses = s.poses)
    (hmem : ∀ k, k ∈ s2.intrinsics ↔ k ∈ s.intrinsics)
    (hp : ∀ k, t.intrinsics.lookup k = s.intrinsics.lookup k ∨
      t.intrinsics.lookup k = s2.intrinsics.lookup k)
    (x : IndexT) :
    t.isPoseAndIntrinsicDefined x = s.isPoseAndIntrinsicDefined x := by
  unfold SfMData.isPoseAndIntrinsicDefined
  rw [hv, hps]
  cases hA : s.views.lookup x with
  | none => rfl
  | some v =>
    show ((s.poses.lookup v.poseId).isSome && (t.intrinsics.lookup v.intrinsicId).isSome) =
      ((s.poses.lookup v.poseId).isSome && (s.intrinsics.lookup v.intrinsicId).isSome)
    have hsome : (t.intrinsics.lookup v.intrinsicId).isSome =
        (s.intrinsics.lookup v.intrinsicId).isSome := by
      rcases hp v.intrinsicId with heq | heq
      · rw [heq]
      · rw [heq]
        cases hs : s.intrinsics.lookup v.intrinsicId with
        | none =>
          have hn : v.intrinsicId ∉ s2.intrinsics :=
            fun hmm => (Finmap.lookup_eq_none.mp hs) ((hmem _).mp hmm)
          rw [Finmap.lookup_eq_none.mpr hn]
        | some w =>
          have h1 : v.intrinsicId ∈ s2.intrinsics :=
            (hmem _).mpr (Finmap.mem_of_lookup_eq_some hs)
          simp [Finmap.lookup_isSome.mpr h1]
    rw [hsome]

theorem transferAll_replay_intr {refS : SfMData} :
    ∀ {cs : List (IndexT × IndexT)} {s t s2 : SfMData},
      transferAll false true refS cs s = .ok s2 →
      t.views = s.views →
      t.poses = s.poses →
      (∀ k, t.intrinsics.lookup k = s.intrinsics.lookup k ∨
        t.intrinsics.lookup k = s2.intrinsics.lookup k) →
      ∃ t2, transferAll false true refS cs t = .ok t2 ∧
        t2.views = s2.views ∧ t2.poses = s2.poses ∧
        (∀ k, t2.intrinsics.lookup k = s2.intrinsics.lookup k) := by
  intro cs
  induction cs with
  | nil =>
    intro s t s2 h hv hps hp
    injection h with h
    subst h
    exact ⟨t, rfl, hv, hps, fun k => (hp k).elim id id⟩
  | cons c cs ih =>
    intro s t s2 h hv hps hp
    unfold transferAll at h ⊢
    cases hstep : transferPair false true refS s c with
    | error e => rw [hstep] at h; exact absurd h (by simp [Except.bind])
    | ok s1 =>
      rw [hstep] at h
      simp only [Except.bind] at h
      cases hd2 : refS.isPoseAndIntrinsicDefined c.2 with
      | false =>
        have hs1 : s1 = s := by
          rw [transferPair_gate_false (by simp [hd2])] at hstep
          injection hstep with hstep
          exact hstep.symm
        subst hs1
        obtain ⟨t2, ht2, h2v, h2p, h2i⟩ := ih h hv hps hp
        refine ⟨t2, ?_, h2v, h2p, h2i⟩
        rw [transferPair_gate_false (by simp [hd2])]
        simp only [Except.bind]
        exact ht2
      | true =>
        cases hd1 : s.isPoseAndIntrinsicDefined c.1 with
        | true =>
          have hs1 : s1 = s := by
            rw [transferPair_gate_false (by simp [hd1])] at hstep
            injection hstep with hstep
            exact hstep.symm
          rw [hs1] at h
          have hmem : ∀ k, k ∈ s2.intrinsics ↔ k ∈ s.intrinsics :=
            (transferAll_ok_shape h).2.2.1
          have hdt : t.isPoseAndIntrinsicDefined c.1 = true := by
            rw [isDefined_eq_of_intr_ptwise hv hps hmem hp c.1]
            exact hd1
          obtain ⟨t2, ht2, h2v, h2p, h2i⟩ := ih h hv hps hp
          refine ⟨t2, ?_, h2v, h2p, h2i⟩
          rw [transferPair_gate_false (by simp [hdt])]
          simp only [Except.bind]
          exact ht2
        | false =>
          obtain ⟨vA, vB, hA, hB⟩ := transferPair_ok_views_exist hd1 hd2 hstep
          have hAt : t.views.lookup c.1 = some vA := by rw [hv]; exact hA
          cases hrig : vA.isPartOfRig || vB.isPartOfRig with
          | true =>
            have hs1 : s1 = s := by
              rw [transferPair_rig hA hB hrig] at hstep
              injection hstep with hstep
              exact hstep.symm
            subst hs1
            obtain ⟨t2, ht2, h2v, h2p, h2i⟩ := ih h hv hps hp
            refine ⟨t2, ?_, h2v, h2p, h2i⟩
            rw [transferPair_rig hAt hB hrig]
            simp only [Except.bind]
            exact ht2
          | false =>
            obtain ⟨w, htr⟩ := refComplete_intr_some hB hd2
            rw [transferPair_gate_enter hd1 hd2 hA hB hrig] at hstep
            unfold doTransferPoses at hstep
            simp only [Bool.false_eq_true, if_false, Except.bind] at hstep
            unfold doTransferIntrinsics at hstep
            cases hti : s.intrinsics.lookup vA.intrinsicId with
            | none => rw [hti] at hstep; simp at hstep
            | some w0 =>
              rw [hti, htr] at hstep
              simp only [if_true] at hstep
              injection hstep with hstep
              subst hstep
              have hmem : ∀ k, k ∈ s2.intrinsics ↔ k ∈ s.intrinsics := by
                intro k
                refine ((transferAll_ok_shape h).2.2.1 k).trans ?_
                show k ∈ s.intrinsics.insert vA.intrinsicId w ↔ k ∈ s.intrinsics
                rw [Finmap.mem_insert]
                constructor
                · rintro (rfl | hk)
                  · exact Finmap.mem_of_lookup_eq_some hti
                  · exact hk
                · exact Or.inr
              have hdt : t.isPoseAndIntrinsicDefined c.1 = false := by
                rw [isDefined_eq_of_intr_ptwise hv hps hmem hp c.1]
                exact hd1
              obtain ⟨w0t, htit⟩ : ∃ u, t.intrinsics.lookup vA.intrinsicId = some u := by
                rcases hp vA.intrinsicId with heq | heq
                · exact ⟨w0, by rw [heq, hti]⟩
                · have h1 : vA.intrinsicId ∈ s2.intrinsics :=
                    (hmem _).mpr (Finmap.mem_of_lookup_eq_some hti)
                  obtain ⟨u, hu⟩ := Finmap.mem_iff.mp h1
                  exact ⟨u, by rw [heq, hu]⟩
              have hstept : transferPair false true refS t c =
                  .ok { t with intrinsics := t.intrinsics.insert vA.intrinsicId w } := by
                rw [transferPair_gate_enter hdt hd2 hAt hB hrig]
                unfold doTransferPoses
                simp only [Bool.false_eq_true, if_false, Except.bind]
                unfold doTransferIntrinsics
                rw [htit, htr]
                simp only [if_true]
              have hp1 : ∀ k,
                  Finmap.lookup k (t.intrinsics.insert vA.intrinsicId w) =
                    Finmap.lookup k (s.intrinsics.insert vA.intrinsicId w) ∨
                  Finmap.lookup k (t.intrinsics.insert vA.intrinsicId w) =
                    s2.intrinsics.lookup k := by
                intro k
                by_cases hk : k = vA.intrinsicId
                · left
                  rw [hk, Finmap.lookup_insert, Finmap.lookup_insert]
                · have h1 : Finmap.lookup k (t.intrinsics.insert vA.intrinsicId w) =
                      t.intrinsics.lookup k := Finmap.lookup_insert_of_ne _ hk
                  have h2 : Finmap.lookup k (s.intrinsics.insert vA.intrinsicId w) =
                      s.intrinsics.lookup k := Finmap.lookup_insert_of_ne _ hk
                  rcases hp k with heq | heq
                  · left; rw [h1, h2]; exact heq
                  · right; rw [h1]; exact heq
              obtain ⟨t2, ht2, h2v, h2p, h2i⟩ :=
                @ih { s with intrinsics := s.intrinsics.insert vA.intrinsicId w }
                  { t with intrinsics := t.intrinsics.insert vA.intrinsicId w } s2 h hv hps hp1
              refine ⟨t2, ?_, h2v, h2p, h2i⟩
              rw [hstept]
              simp only [Except.bind]
              exact ht2

theorem transferAll_idem_poses {refS : SfMData} {cs : List (IndexT × IndexT)}
    {s s2 : SfMData} (h : transferAll true false refS cs s = .ok s2) :
    transferAll true false refS cs s2 = .ok s2 := by
  obtain ⟨hv, _, _, _, hfi⟩ := transferAll_ok_shape h
  obtain ⟨t2, ht2, h2v, h2i, h2p⟩ :=
    transferAll_replay_poses h hv (hfi rfl) (fun k => Or.inr rfl)
  have ht2eq : t2 = s2 := SfMData.ext h2v (Finmap.ext_lookup h2p) h2i
  rw [ht2eq] at ht2
  exact ht2

theorem transferAll_idem_intr {refS : SfMData} {cs : List (IndexT × IndexT)}
    {s s2 : SfMData} (h : transferAll false true refS cs s = .ok s2) :
    transferAll false true refS cs s2 = .ok s2 := by
  obtain ⟨hv, _, _, hfp, _⟩ := transferAll_ok_shape h
  obtain ⟨t2, ht2, h2v, h2p, h2i⟩ :=
    transferAll_replay_intr h hv (hfp rfl) (fun k => Or.inr rfl)
  have ht2eq : t2 = s2 := SfMData.ext h2v h2p (Finmap.ext_lookup h2i)
  rw [ht2eq] at ht2
  exact ht2

/-- **C4**: the transfer loop is idempotent — for every target scene,
reference scene, correspondence list and flag setting, if one run of the
loop produces a final target scene, a second run on that result
reproduces it unchanged, so running the loop twice equals running it
once. -/
theorem transfer_idempotent {tp ti : Bool} {refS : SfMData} {cs : List (IndexT × IndexT)}
    {s s2 : SfMData} (h : transferAll tp ti refS cs s = .ok s2) :
    transferAll tp ti refS cs s2 = .ok s2 := by
  cases tp <;> cases ti
  · exact transferAll_idem_none h
  · exact transferAll_idem_intr h
  · exact transferAll_idem_poses h
  · exact transferAll_idem_both h

theorem transfer_idempotent_witness :
    transferAll true true exRefScene [(1, 1)] exIncompleteTarget =
      .ok { exIncompleteTarget with
              poses := exIncompleteTarget.poses.insert 1 7,
              intrinsics := exIncompleteTarget.intrinsics.insert 1 8 } ∧
    transferAll true true exRefScene [(1, 1)]
      { exIncompleteTarget with
          poses := exIncompleteTarget.poses.insert 1 7,
          intrinsics := exIncompleteTarget.intrinsics.insert 1 8 } =
      .ok { exIncompleteTarget with
              poses := exIncompleteTarget.poses.insert 1 7,
              intrinsics := exIncompleteTarget.intrinsics.insert 1 8 } :=
  ⟨by decide,
    @transfer_idempotent true true exRefScene [(1, 1)] exIncompleteTarget
      { exIncompleteTarget with
          poses := exIncompleteTarget.poses.insert 1 7,
          intrinsics := exIncompleteTarget.intrinsics.insert 1 8 }
      (by decide)⟩
